import Mathlib

/-!
Verification of the VITALSYNC live-session core (SampleCodec, PlaybackScheduler,
AudioCaptureLine, SessionController) against the code in services/geminiService
and the LiveDashboard component.

Shallow embedding conventions:
- bytes are modelled as `Nat` (with explicit `< 256` bounds where relevant);
- audio samples and clock times are modelled as `ℚ` (exact arithmetic in place of
  IEEE floats, the standard idealization for the codec's scaling arithmetic);
- JavaScript exceptions (`atob` failure, odd `Int16Array` byte length) are
  modelled as `Except CodecError`;
- base64 text (`btoa`/`atob`) is modelled at the `Char` level on the standard
  alphabet, restricted to the padded, whitespace-free form `btoa` produces.
-/

/-! ### Text transport: btoa / atob (standard base64, as used by the codec) -/

/-- The standard base64 alphabet used by `btoa`/`atob`. -/
def b64Alphabet : List Char :=
  ['A', 'B', 'C', 'D', 'E', 'F', 'G', 'H', 'I', 'J', 'K', 'L', 'M',
   'N', 'O', 'P', 'Q', 'R', 'S', 'T', 'U', 'V', 'W', 'X', 'Y', 'Z',
   'a', 'b', 'c', 'd', 'e', 'f', 'g', 'h', 'i', 'j', 'k', 'l', 'm',
   'n', 'o', 'p', 'q', 'r', 's', 't', 'u', 'v', 'w', 'x', 'y', 'z',
   '0', '1', '2', '3', '4', '5', '6', '7', '8', '9', '+', '/']

/-- Map a 6-bit value to its base64 character. -/
def sixToChar (n : Nat) : Char := b64Alphabet.getD n '?'

/-- Map a base64 character back to its 6-bit value; `none` for characters
outside the alphabet (including the padding character). -/
def charToSix (c : Char) : Option Nat :=
  let i := b64Alphabet.indexOf c
  if i < b64Alphabet.length then some i else none

/-- The `btoa` path of `float32To16BitPCMBase64`: bytes to base64 characters,
three bytes per four characters, with `=` padding on a partial final group. -/
def b64encodeBytes : List Nat → List Char
  | [] => []
  | [b0] => [sixToChar (b0 / 4), sixToChar (b0 % 4 * 16), '=', '=']
  | [b0, b1] =>
      [sixToChar (b0 / 4), sixToChar (b0 % 4 * 16 + b1 / 16),
       sixToChar (b1 % 16 * 4), '=']
  | b0 :: b1 :: b2 :: rest =>
      sixToChar (b0 / 4) :: sixToChar (b0 % 4 * 16 + b1 / 16) ::
      sixToChar (b1 % 16 * 4 + b2 / 64) :: sixToChar (b2 % 64) ::
      b64encodeBytes rest

/-- The `atob` path of `base64ToAudioBuffer`: base64 characters back to bytes;
`none` on malformed input (bad length, stray characters, misplaced padding). -/
def b64decodeChars : List Char → Option (List Nat)
  | [] => some []
  | c0 :: c1 :: c2 :: c3 :: rest =>
      match charToSix c0, charToSix c1 with
      | some s0, some s1 =>
          if c2 = '=' then
            if c3 = '=' ∧ rest = [] then some [s0 * 4 + s1 / 16] else none
          else
            match charToSix c2 with
            | some s2 =>
                if c3 = '=' then
                  if rest = [] then
                    some [s0 * 4 + s1 / 16, s1 % 16 * 16 + s2 / 4]
                  else none
                else
                  match charToSix c3 with
                  | some s3 =>
                      match b64decodeChars rest with
                      | some t =>
                          some ((s0 * 4 + s1 / 16) :: (s1 % 16 * 16 + s2 / 4) ::
                                (s2 % 4 * 64 + s3) :: t)
                      | none => none
                  | none => none
            | none => none
      | _, _ => none
  | _ => none

theorem charToSix_sixToChar : ∀ n, n < 64 → charToSix (sixToChar n) = some n := by
  decide

theorem sixToChar_ne_pad : ∀ n, n < 64 → ¬ sixToChar n = '=' := by
  decide

/-- Decoding inverts encoding exactly, for every byte sequence. -/
theorem b64_roundtrip_aux :
    ∀ (l : List Nat), (∀ b ∈ l, b < 256) →
      b64decodeChars (b64encodeBytes l) = some l
  | [], _ => by simp [b64encodeBytes, b64decodeChars]
  | [b0], h => by
      have hb0 : b0 < 256 := h b0 (by simp)
      have h0 := charToSix_sixToChar (b0 / 4) (by omega)
      have h1 := charToSix_sixToChar (b0 % 4 * 16) (by omega)
      simp [b64encodeBytes, b64decodeChars, h0, h1]
      omega
  | [b0, b1], h => by
      have hb0 : b0 < 256 := h b0 (by simp)
      have hb1 : b1 < 256 := h b1 (by simp)
      have h0 := charToSix_sixToChar (b0 / 4) (by omega)
      have h1 := charToSix_sixToChar (b0 % 4 * 16 + b1 / 16) (by omega)
      have h2 := charToSix_sixToChar (b1 % 16 * 4) (by omega)
      have h2' := sixToChar_ne_pad (b1 % 16 * 4) (by omega)
      simp [b64encodeBytes, b64decodeChars, h0, h1, h2, h2']
      omega
  | b0 :: b1 :: b2 :: rest, h => by
      have hb0 : b0 < 256 := h b0 (by simp)
      have hb1 : b1 < 256 := h b1 (by simp)
      have hb2 : b2 < 256 := h b2 (by simp)
      have ih := b64_roundtrip_aux rest (fun b hb => h b (by simp [hb]))
      have h0 := charToSix_sixToChar (b0 / 4) (by omega)
      have h1 := charToSix_sixToChar (b0 % 4 * 16 + b1 / 16) (by omega)
      have h2 := charToSix_sixToChar (b1 % 16 * 4 + b2 / 64) (by omega)
      have h3 := charToSix_sixToChar (b2 % 64) (by omega)
      have h2' := sixToChar_ne_pad (b1 % 16 * 4 + b2 / 64) (by omega)
      have h3' := sixToChar_ne_pad (b2 % 64) (by omega)
      simp [b64encodeBytes, b64decodeChars, h0, h1, h2, h3, h2', h3', ih]
      omega

/-! ### SampleCodec: float samples to 16-bit PCM and back

`float32To16BitPCMBase64` clamps each sample to `[-1, 1]`, scales negative
samples by `0x8000` and non-negative samples by `0x7FFF`, truncates toward zero
(the JavaScript `Int16Array` element conversion), packs each 16-bit value into
two little-endian bytes, and base64-encodes the bytes. `base64ToAudioBuffer`
inverts the text transform, reads the bytes back as 16-bit signed integers
(failing when the byte length is odd, as `new Int16Array(bytes.buffer)` does),
and divides by `32768`.
-/

/-- Errors of the decode path; the spec taxonomy calls a failed inbound packet
decode `MalformedPacket`. -/
inductive CodecError where
  | malformedPacket
deriving DecidableEq

/-- Read two little-endian bytes as a 16-bit signed integer. -/
def int16OfBytes (b0 b1 : Nat) : ℤ :=
  let u : Nat := b0 + 256 * b1
  if u < 32768 then (u : ℤ) else (u : ℤ) - 65536

/-- The Int16-to-Float32 loop of `base64ToAudioBuffer`: pairs of bytes become
samples divided by `32768`; an odd byte count is a malformed packet. -/
def bytesToSamples : List Nat → Except CodecError (List ℚ)
  | [] => .ok []
  | [_] => .error CodecError.malformedPacket
  | b0 :: b1 :: rest =>
      match bytesToSamples rest with
      | .ok t => .ok (((int16OfBytes b0 b1 : ℚ) / 32768) :: t)
      | .error e => .error e

/-- Clamp a sample to `[-1, 1]` (`Math.max(-1, Math.min(1, s))`). -/
def clamp (s : ℚ) : ℚ := max (-1) (min 1 s)

/-- JavaScript number-to-integer conversion: truncation toward zero. -/
def jsTrunc (q : ℚ) : ℤ := if 0 ≤ q then ⌊q⌋ else ⌈q⌉

/-- The Int16 value produced for one sample: sign-dependent scaling
(`s < 0 ? s * 0x8000 : s * 0x7FFF`) after clamping. -/
def encodeSampleInt (s : ℚ) : ℤ :=
  if clamp s < 0 then jsTrunc (clamp s * 32768) else jsTrunc (clamp s * 32767)

/-- The unsigned 16-bit representation stored in the `Int16Array` buffer. -/
def uint16OfInt (i : ℤ) : Nat := (i % 65536).toNat

/-- The byte stream backing the encoded `Int16Array` (little-endian pairs). -/
def bytesOfSamples : List ℚ → List Nat
  | [] => []
  | s :: rest =>
      uint16OfInt (encodeSampleInt s) % 256 ::
      uint16OfInt (encodeSampleInt s) / 256 :: bytesOfSamples rest

/-- The full encode path of the source: samples to PCM bytes to base64 text. -/
def float32To16BitPCMBase64 (l : List ℚ) : List Char :=
  b64encodeBytes (bytesOfSamples l)

/-- The full decode path of the source: base64 text to bytes to samples; any
failure (bad base64, odd byte count) is a malformed packet. -/
def base64ToAudioBuffer (s : List Char) : Except CodecError (List ℚ) :=
  match b64decodeChars s with
  | some bytes => bytesToSamples bytes
  | none => .error CodecError.malformedPacket

/-- The value a sample round-trips to through encode and decode. -/
def decodedSample (s : ℚ) : ℚ := (encodeSampleInt s : ℚ) / 32768

theorem clamp_le_one (s : ℚ) : clamp s ≤ 1 :=
  max_le (by norm_num) (min_le_left _ _)

theorem neg_one_le_clamp (s : ℚ) : -1 ≤ clamp s := le_max_left _ _

theorem encodeSampleInt_range (s : ℚ) :
    -32768 ≤ encodeSampleInt s ∧ encodeSampleInt s ≤ 32767 := by
  have hc1 : -1 ≤ clamp s := neg_one_le_clamp s
  have hc2 : clamp s ≤ 1 := clamp_le_one s
  unfold encodeSampleInt jsTrunc
  by_cases h : clamp s < 0
  · have hq : ¬ (0 : ℚ) ≤ clamp s * 32768 := by nlinarith
    simp only [h, if_true, hq, if_false]
    constructor
    · have h1 : (-32768 : ℚ) ≤ clamp s * 32768 := by nlinarith
      have h2 := Int.le_ceil (clamp s * 32768)
      have : (-32768 : ℚ) ≤ (⌈clamp s * 32768⌉ : ℚ) := le_trans h1 h2
      exact_mod_cast this
    · have h1 : clamp s * 32768 ≤ 0 := by nlinarith
      have h2 : ⌈clamp s * 32768⌉ ≤ ⌈(0 : ℚ)⌉ := Int.ceil_mono h1
      simp at h2
      omega
  · have hc0 : (0 : ℚ) ≤ clamp s := le_of_not_lt h
    have hq : (0 : ℚ) ≤ clamp s * 32767 := by nlinarith
    simp only [h, if_false, hq, if_true]
    constructor
    · have : (0 : ℤ) ≤ ⌊clamp s * 32767⌋ := Int.floor_nonneg.mpr hq
      omega
    · have h1 : clamp s * 32767 ≤ 32767 := by nlinarith
      have h2 := Int.floor_le (clamp s * 32767)
      have : (⌊clamp s * 32767⌋ : ℚ) ≤ 32767 := le_trans h2 h1
      exact_mod_cast this

theorem int16_roundtrip (i : ℤ) (h1 : -32768 ≤ i) (h2 : i ≤ 32767) :
    int16OfBytes (uint16OfInt i % 256) (uint16OfInt i / 256) = i := by
  simp only [int16OfBytes, uint16OfInt]
  split <;> omega

theorem bytesOfSamples_lt (l : List ℚ) : ∀ b ∈ bytesOfSamples l, b < 256 := by
  induction l with
  | nil => simp [bytesOfSamples]
  | cons s rest ih =>
      intro b hb
      simp only [bytesOfSamples, List.mem_cons] at hb
      have hmod : (encodeSampleInt s % 65536) < 65536 :=
        Int.emod_lt_of_pos _ (by norm_num)
      have hmod0 : 0 ≤ encodeSampleInt s % 65536 :=
        Int.emod_nonneg _ (by norm_num)
      rcases hb with h | h | h
      · subst h; omega
      · subst h; simp only [uint16OfInt]; omega
      · exact ih b h

theorem bytesToSamples_ofSamples (l : List ℚ) :
    bytesToSamples (bytesOfSamples l) = Except.ok (l.map decodedSample) := by
  induction l with
  | nil => simp [bytesOfSamples, bytesToSamples]
  | cons s rest ih =>
      have hr := encodeSampleInt_range s
      have h := int16_roundtrip (encodeSampleInt s) hr.1 hr.2
      simp [bytesOfSamples, bytesToSamples, ih, decodedSample, h]

theorem decodedSample_close (s : ℚ) (h1 : -1 ≤ s) (h2 : s ≤ 1) :
    |decodedSample s - s| < 2 / 32768 := by
  have hcl : clamp s = s := by
    unfold clamp
    rw [min_eq_right h2, max_eq_right h1]
  unfold decodedSample encodeSampleInt jsTrunc
  rw [hcl]
  by_cases hs : s < 0
  · have hq : ¬ (0 : ℚ) ≤ s * 32768 := by nlinarith
    simp only [hs, if_true, hq, if_false]
    rw [abs_lt]
    have ha := Int.le_ceil (s * 32768)
    have hb := Int.ceil_lt_add_one (s * 32768)
    constructor <;> [nlinarith; nlinarith]
  · have hs0 : (0 : ℚ) ≤ s := le_of_not_lt hs
    have hq : (0 : ℚ) ≤ s * 32767 := by nlinarith
    simp only [hs, if_false, hq, if_true]
    rw [abs_lt]
    have ha := Int.floor_le (s * 32767)
    have hb := Int.sub_one_lt_floor (s * 32767)
    constructor <;> [nlinarith; nlinarith]

/-! ### PlaybackScheduler

The inbound `onMessage` handler of `connectLive`: for each decodable packet it
computes `startTime = max(ctx.currentTime, nextStartTimeRef.current)`, starts
the buffer there, and advances `nextStartTimeRef.current = startTime +
buffer.duration`. Clock times are modelled as `ℚ`.
-/

/-- Run the scheduler over a list of clock readings (the value of
`ctx.currentTime` when each packet of fixed duration `d` is handled), from an
initial cursor. Each output pair is `(startTime, cursor after the packet)`. -/
def schedRun (cursor d : ℚ) : List ℚ → List (ℚ × ℚ)
  | [] => []
  | now :: rest =>
      (max now cursor, max now cursor + d) ::
      schedRun (max now cursor + d) d rest

theorem schedRun_head_ge (d : ℚ) :
    ∀ (arr : List ℚ) (c : ℚ) (p : ℚ × ℚ),
      (schedRun c d arr).head? = some p → c ≤ p.1
  | [], _, _, h => by simp [schedRun] at h
  | now :: rest, c, p, h => by
      simp only [schedRun, List.head?_cons, Option.some.injEq] at h
      subst h
      exact le_max_right _ _

theorem schedRun_chain (d : ℚ) (hd : 0 ≤ d) :
    ∀ (arr : List ℚ) (c : ℚ),
      List.Chain' (fun p q : ℚ × ℚ => p.1 + d ≤ q.1) (schedRun c d arr)
  | [], _ => List.chain'_nil
  | now :: rest, c => by
      simp only [schedRun]
      rw [List.chain'_cons']
      refine ⟨?_, schedRun_chain d hd rest _⟩
      intro q hq
      have := schedRun_head_ge d rest (max now c + d) q hq
      simpa using this

theorem schedRun_cursor_chain (d : ℚ) (hd : 0 ≤ d) :
    ∀ (arr : List ℚ) (c : ℚ),
      List.Chain' (· ≤ ·) (c :: (schedRun c d arr).map Prod.snd)
  | [], _ => by simp [schedRun]
  | now :: rest, c => by
      simp only [schedRun, List.map_cons]
      rw [List.chain'_cons]
      refine ⟨?_, schedRun_cursor_chain d hd rest _⟩
      have : c ≤ max now c := le_max_right _ _
      linarith

theorem schedRun_shape (d : ℚ) :
    ∀ (arr : List ℚ) (c : ℚ) (i : Nat), i < (schedRun c d arr).length →
      (schedRun c d arr).getD i (0, 0)
        = (max (arr.getD i 0) ((c :: (schedRun c d arr).map Prod.snd).getD i 0),
           max (arr.getD i 0) ((c :: (schedRun c d arr).map Prod.snd).getD i 0) + d)
  | [], _, i, h => by simp [schedRun] at h
  | now :: rest, c, 0, _ => by simp [schedRun]
  | now :: rest, c, i + 1, h => by
      simp only [schedRun, List.length_cons] at h
      have ih := schedRun_shape d rest (max now c + d) i (by omega)
      simpa [schedRun] using ih

/-! ### Inbound message processing (onMessage of connectLive)

Each inbound message carries a base64 audio payload; `base64ToAudioBuffer` runs
inside a `try`/`catch`, so a decode failure only logs and moves on — the cursor
is not touched and nothing is scheduled. A decoded buffer of `n` samples on the
24000 Hz playback context has duration `n / 24000`.
-/

/-- Process a list of `(ctx.currentTime, payload)` inbound messages from a
cursor value; returns the scheduled start times and the final cursor. -/
def runMessages (cursor : ℚ) : List (ℚ × List Char) → List ℚ × ℚ
  | [] => ([], cursor)
  | (now, p) :: rest =>
      match base64ToAudioBuffer p with
      | .error _ => runMessages cursor rest
      | .ok samples =>
          let s := max now cursor
          let r := runMessages (s + (samples.length : ℚ) / 24000) rest
          (s :: r.1, r.2)

/-! ### SessionController state (connectLive / disconnectLive)

`LiveState` holds the component refs and flags of LiveDashboard that the
session lifecycle touches; `disconnectLive` is modelled as a pure function
returning the new state together with the ordered list of side effects it
performs (UI flag updates, resource releases, transport close). Each ref is
released only when non-null and then nulled, exactly as in the source.
-/

structure LiveState where
  isLiveConnected : Bool
  isLiveConnecting : Bool
  audioLevel : ℤ
  processorRef : Bool
  inputSourceRef : Bool
  audioContextRef : Bool
  sessionRef : Bool
deriving DecidableEq

/-- The observable side effects of `disconnectLive`, in program order. -/
inductive TeardownAct where
  | setConnected (b : Bool)
  | setConnecting (b : Bool)
  | setLevel (n : ℤ)
  | releaseProcessor
  | releaseInputSource
  | releaseAudioContext
  | closeSession
deriving DecidableEq, BEq

/-- Is the action a resource release (as opposed to a UI state update)? -/
def isRelease : TeardownAct → Bool
  | TeardownAct.releaseProcessor => true
  | TeardownAct.releaseInputSource => true
  | TeardownAct.releaseAudioContext => true
  | TeardownAct.closeSession => true
  | _ => false

/-- The state after teardown: flags false, level zero, every ref null. -/
def closedState : LiveState :=
  ⟨false, false, 0, false, false, false, false⟩

/-- `disconnectLive`: set the UI flags, then release each still-held resource
(nulling its ref), then close the transport session, in source order. -/
def disconnectLive (st : LiveState) : LiveState × List TeardownAct :=
  (closedState,
    TeardownAct.setConnected false :: TeardownAct.setConnecting false ::
    TeardownAct.setLevel 0 ::
      ((if st.processorRef then [TeardownAct.releaseProcessor] else [])
        ++ (if st.inputSourceRef then [TeardownAct.releaseInputSource] else [])
        ++ (if st.audioContextRef then [TeardownAct.releaseAudioContext] else [])
        ++ (if st.sessionRef then [TeardownAct.closeSession] else [])))

/-- A fully wired Active-session state (used as the concrete teardown input). -/
def activeState : LiveState := ⟨true, false, 5, true, true, true, true⟩

/-- Errors named by the spec for `connect`. -/
inductive LiveErr where
  | deviceUnavailable
  | handshakeFailed
  | alreadyActive
deriving DecidableEq

/-- What a call to `connect` does, from the caller's point of view. -/
inductive ConnectOutcome where
  | noop
  | proceed
  | failure (e : LiveErr)
deriving DecidableEq

/-- The guard at the top of `connectLive`:
`if (!stream || isLiveConnected || isLiveConnecting) return;` — a silent
early return; otherwise the connect attempt proceeds. -/
def connectLiveGuard (hasStream isLiveConnected isLiveConnecting : Bool) :
    ConnectOutcome :=
  if !hasStream || isLiveConnected || isLiveConnecting then ConnectOutcome.noop
  else ConnectOutcome.proceed

/-! ### AudioCaptureLine amplitude level

`processor.onaudioprocess` computes `rms = sqrt(sum of squares / length)` and
then `setAudioLevel(Math.min(100, Math.round(rms * 400)))`. The square root is
irrational in general, so the level map is stated for an arbitrary `rms ≥ 0`
whose square is the buffer's mean square; `Math.round(x)` for `x ≥ 0` is
`⌊x + 1/2⌋`.
-/

/-- Mean of the squared samples of a capture buffer. -/
def meanSquare (l : List ℚ) : ℚ := (l.map fun s => s * s).sum / (l.length : ℚ)

/-- The UI level computed from the RMS amplitude:
`Math.min(100, Math.round(rms * 400))`. -/
def audioLevelOf (rms : ℚ) : ℤ := min 100 ⌊rms * 400 + 1 / 2⌋

/-- The spec's reading of the same map: cap the amplitude first (at the value
that scales to full meter), then scale. -/
def audioLevelCapFirst (rms : ℚ) : ℤ := ⌊min (1 / 4) rms * 400 + 1 / 2⌋

/-! ### Claim theorems -/

/-- C1: for any packet sequence of fixed duration `d ≥ 0` processed in order,
each scheduled start time is `max(clock, cursor)`, the cursor advances to
`start + d`, consecutive start times are at least `d` apart, the cursor is
non-decreasing across the whole sequence, and no two consecutively scheduled
buffers have overlapping time ranges. -/
theorem playback_scheduler_monotone (d cursor0 : ℚ) (hd : 0 ≤ d)
    (arrivals : List ℚ) :
    (∀ i, i < (schedRun cursor0 d arrivals).length →
      (schedRun cursor0 d arrivals).getD i (0, 0)
        = (max (arrivals.getD i 0)
             ((cursor0 :: (schedRun cursor0 d arrivals).map Prod.snd).getD i 0),
           max (arrivals.getD i 0)
             ((cursor0 :: (schedRun cursor0 d arrivals).map Prod.snd).getD i 0) + d))
    ∧ List.Chain' (fun p q : ℚ × ℚ => p.1 + d ≤ q.1) (schedRun cursor0 d arrivals)
    ∧ List.Chain' (· ≤ ·) (cursor0 :: (schedRun cursor0 d arrivals).map Prod.snd)
    ∧ List.Chain'
        (fun p q : ℚ × ℚ =>
          ∀ t : ℚ, p.1 ≤ t → t < p.1 + d → ¬ (q.1 ≤ t ∧ t < q.1 + d))
        (schedRun cursor0 d arrivals) := by
  refine ⟨schedRun_shape d arrivals cursor0, schedRun_chain d hd arrivals cursor0,
    schedRun_cursor_chain d hd arrivals cursor0, ?_⟩
  refine (schedRun_chain d hd arrivals cursor0).imp ?_
  intro p q h t ht1 ht2 hq
  rcases hq with ⟨hq1, hq2⟩
  linarith

/-- Witness for C1 at duration 1, initial cursor 0, two simultaneous arrivals. -/
theorem playback_scheduler_monotone_witness :
    (0 : ℚ) ≤ 1
    ∧ ((∀ i, i < (schedRun 0 1 [0, 0]).length →
          (schedRun 0 1 [0, 0]).getD i (0, 0)
            = (max (([0, 0] : List ℚ).getD i 0)
                 ((0 :: (schedRun 0 1 [0, 0]).map Prod.snd).getD i 0),
               max (([0, 0] : List ℚ).getD i 0)
                 ((0 :: (schedRun 0 1 [0, 0]).map Prod.snd).getD i 0) + 1))
      ∧ List.Chain' (fun p q : ℚ × ℚ => p.1 + 1 ≤ q.1) (schedRun 0 1 [0, 0])
      ∧ List.Chain' (· ≤ ·) (0 :: (schedRun 0 1 [0, 0]).map Prod.snd)
      ∧ List.Chain'
          (fun p q : ℚ × ℚ =>
            ∀ t : ℚ, p.1 ≤ t → t < p.1 + 1 → ¬ (q.1 ≤ t ∧ t < q.1 + 1))
          (schedRun 0 1 [0, 0])) :=
  ⟨by norm_num, playback_scheduler_monotone 1 0 (by norm_num) [0, 0]⟩

/-- C2 counterexample: the claimed one-quantization-step bound fails. For the
in-range sample `0.9999` the decoded value is `32763/32768` and the round-trip
error exceeds `1/32768` (the encoder scales non-negative samples by `0x7FFF`
while the decoder divides by `0x8000`). -/
theorem sample_roundtrip_one_step_false :
    base64ToAudioBuffer (float32To16BitPCMBase64 [(9999 : ℚ) / 10000])
      = Except.ok [(32763 : ℚ) / 32768]
    ∧ ¬ (|(32763 : ℚ) / 32768 - 9999 / 10000| ≤ 1 / 32768) := by
  constructor
  · have h1 := b64_roundtrip_aux (bytesOfSamples [(9999 : ℚ) / 10000])
      (bytesOfSamples_lt _)
    have h2 := bytesToSamples_ofSamples [(9999 : ℚ) / 10000]
    unfold base64ToAudioBuffer float32To16BitPCMBase64
    rw [h1]
    show bytesToSamples (bytesOfSamples [(9999 : ℚ) / 10000]) = _
    rw [h2]
    have h3 : decodedSample ((9999 : ℚ) / 10000) = 32763 / 32768 := by
      unfold decodedSample encodeSampleInt clamp jsTrunc
      rw [min_eq_right (by norm_num), max_eq_right (by norm_num)]
      rw [if_neg (by norm_num), if_pos (by norm_num)]
      have h4 : ⌊(9999 : ℚ) / 10000 * 32767⌋ = 32763 := by
        rw [Int.floor_eq_iff]
        constructor <;> norm_num
      rw [h4]
      norm_num
    simp [h3]
  · rw [abs_of_neg (by norm_num : (32763 : ℚ) / 32768 - 9999 / 10000 < 0)]
    norm_num

/-- C2 (amended): decoding the encoded form of a sample sequence with every
sample in `[-1, 1]` succeeds, preserves the length, and reproduces each sample
to within two fixed-point quantization steps (error strictly below `2/32768`;
negative samples are within one step, non-negative samples can exceed one step
because encode scales by `32767` while decode divides by `32768`). -/
theorem sample_roundtrip_within_two_steps (l : List ℚ)
    (h : ∀ s ∈ l, -1 ≤ s ∧ s ≤ 1) :
    base64ToAudioBuffer (float32To16BitPCMBase64 l)
      = Except.ok (l.map decodedSample)
    ∧ (l.map decodedSample).length = l.length
    ∧ ∀ i (hi : i < l.length), |decodedSample l[i] - l[i]| < 2 / 32768 := by
  refine ⟨?_, by simp, ?_⟩
  · unfold base64ToAudioBuffer float32To16BitPCMBase64
    rw [b64_roundtrip_aux (bytesOfSamples l) (bytesOfSamples_lt l)]
    exact bytesToSamples_ofSamples l
  · intro i hi
    have hm := h l[i] (l.getElem_mem hi)
    exact decodedSample_close _ hm.1 hm.2

/-- Witness for C2 (amended) at the one-sample sequence `[1/2]`. -/
theorem sample_roundtrip_within_two_steps_witness :
    (∀ s ∈ [(1 / 2 : ℚ)], -1 ≤ s ∧ s ≤ 1)
    ∧ (base64ToAudioBuffer (float32To16BitPCMBase64 [(1 / 2 : ℚ)])
        = Except.ok ([(1 / 2 : ℚ)].map decodedSample)
      ∧ ([(1 / 2 : ℚ)].map decodedSample).length = [(1 / 2 : ℚ)].length
      ∧ ∀ i (hi : i < [(1 / 2 : ℚ)].length),
          |decodedSample [(1 / 2 : ℚ)][i] - [(1 / 2 : ℚ)][i]| < 2 / 32768) :=
  ⟨by norm_num, sample_roundtrip_within_two_steps [(1 / 2 : ℚ)] (by norm_num)⟩

/-- C3: a packet whose decode fails is dropped on its own — it schedules
nothing and leaves the cursor unchanged — and removing it from any inbound
sequence changes neither the scheduled start times nor the final cursor, so
the valid packets before and after it are unaffected. -/
theorem malformed_packet_isolation (bad : List Char)
    (hbad : base64ToAudioBuffer bad = Except.error CodecError.malformedPacket) :
    (∀ cursor now : ℚ, runMessages cursor [(now, bad)] = ([], cursor))
    ∧ ∀ (xs ys : List (ℚ × List Char)) (cursor t : ℚ),
        runMessages cursor (xs ++ (t, bad) :: ys) = runMessages cursor (xs ++ ys) := by
  constructor
  · intro c now
    simp [runMessages, hbad]
  · intro xs
    induction xs with
    | nil =>
        intro ys c t
        simp [runMessages, hbad]
    | cons hd tl ih =>
        intro ys c t
        obtain ⟨now, p⟩ := hd
        simp only [List.cons_append, runMessages]
        cases hp : base64ToAudioBuffer p with
        | error e => simp [hp, ih]
        | ok samples => simp [hp, ih]

/-- Witness for C3 with the malformed one-character packet. -/
theorem malformed_packet_isolation_witness :
    base64ToAudioBuffer [ 'A' ] = Except.error CodecError.malformedPacket
    ∧ ((∀ cursor now : ℚ, runMessages cursor [(now, [ 'A' ])] = ([], cursor))
      ∧ ∀ (xs ys : List (ℚ × List Char)) (cursor t : ℚ),
          runMessages cursor (xs ++ (t, [ 'A' ]) :: ys)
            = runMessages cursor (xs ++ ys)) :=
  ⟨by simp [base64ToAudioBuffer, b64decodeChars],
   malformed_packet_isolation [ 'A' ]
     (by simp [base64ToAudioBuffer, b64decodeChars])⟩

/-- C4: `disconnectLive` is idempotent: from any state it lands in the single
terminal closed state; a second call from there changes nothing and performs
no release; and one call releases each of the audio processor, input source,
audio context and transport session at most once (each release guarded by its
ref being non-null, after which the ref is nulled). -/
theorem disconnect_idempotent (st : LiveState) :
    (disconnectLive st).1 = closedState
    ∧ (disconnectLive (disconnectLive st).1).1 = (disconnectLive st).1
    ∧ (disconnectLive (disconnectLive st).1).2.filter isRelease = []
    ∧ ((disconnectLive st).2.filter isRelease).Nodup := by
  refine ⟨rfl, rfl, ?_, ?_⟩
  · show (disconnectLive closedState).2.filter isRelease = []
    decide
  · rcases st with ⟨a, b, lvl, p, i, c, s⟩
    cases p <;> cases i <;> cases c <;> cases s <;>
      simp [disconnectLive, isRelease]

/-- C6 counterexample: with a stream present and a session already Active, the
`connectLive` guard returns silently (a no-op), which is not the claimed
`AlreadyActive` error. -/
theorem connect_already_active_no_error :
    connectLiveGuard true true false = ConnectOutcome.noop
    ∧ ConnectOutcome.noop ≠ ConnectOutcome.failure LiveErr.alreadyActive := by
  decide

/-- C6 (amended): when a session is already Active or a connect is already in
flight, `connectLive` silently does nothing — it neither proceeds nor reports
an error to the caller. -/
theorem connect_when_active_noop (hasStream isConn isConning : Bool)
    (h : isConn = true ∨ isConning = true) :
    connectLiveGuard hasStream isConn isConning = ConnectOutcome.noop := by
  cases hasStream <;> cases isConn <;> cases isConning <;>
    simp_all [connectLiveGuard]

/-- Witness for C6 (amended): already connected, not connecting. -/
theorem connect_when_active_noop_witness :
    (true = true ∨ false = true)
    ∧ connectLiveGuard true true false = ConnectOutcome.noop :=
  ⟨Or.inl rfl, connect_when_active_noop true true false (Or.inl rfl)⟩

/-- C7 counterexample: tearing down from the Active state, the Closed-flag
update (`setIsLiveConnected(false)`) is NOT placed after every resource
release — it is the first action of the teardown trace, so "Closed becomes
observable only after all resources are released" fails on the code. -/
theorem closed_after_release_false :
    ¬ (∀ i, i < (disconnectLive activeState).2.length →
        ∀ j, j < (disconnectLive activeState).2.length →
          (disconnectLive activeState).2.getD i (TeardownAct.setConnecting true)
            = TeardownAct.setConnected false →
          isRelease ((disconnectLive activeState).2.getD j
            (TeardownAct.setConnecting true)) = true →
          j < i) := by
  decide

/-- C7 (amended): the Closed-state flag updates are the first actions of the
teardown routine, issued before — not after — the resource releases, which all
happen later in the same synchronous call. -/
theorem closed_signal_before_release (st : LiveState) :
    ∃ rel, (disconnectLive st).2
        = TeardownAct.setConnected false :: TeardownAct.setConnecting false ::
          TeardownAct.setLevel 0 :: rel
      ∧ ∀ x ∈ rel, isRelease x = true := by
  rcases st with ⟨a, b, lvl, p, i, c, s⟩
  refine ⟨_, rfl, ?_⟩
  intro x hx
  cases p <;> cases i <;> cases c <;> cases s <;> cases x <;>
    simp_all [disconnectLive, isRelease]

/-- C5: for any capture buffer and any `rms ≥ 0` whose square is the buffer's
mean square (the RMS the callback computes), the UI level
`min(100, round(rms * 400))` lies in `[0, 100]`, and it coincides with the
cap-before-scaling formulation `round(min(1/4, rms) * 400)`, so extreme peaks
saturate the meter instead of distorting it. -/
theorem audio_level_bounded (l : List ℚ) (rms : ℚ)
    (h0 : 0 ≤ rms) (h1 : rms * rms = meanSquare l) :
    0 ≤ audioLevelOf rms ∧ audioLevelOf rms ≤ 100
      ∧ audioLevelOf rms = audioLevelCapFirst rms := by
  refine ⟨?_, min_le_left _ _, ?_⟩
  · unfold audioLevelOf
    refine le_min (by norm_num) ?_
    refine Int.le_floor.mpr ?_
    push_cast
    nlinarith
  · by_cases hr : rms ≤ 1 / 4
    · unfold audioLevelOf audioLevelCapFirst
      rw [min_eq_right hr]
      refine min_eq_right ?_
      have h2 : ⌊rms * 400 + 1 / 2⌋ < 101 := by
        rw [Int.floor_lt]
        push_cast
        nlinarith
      omega
    · push_neg at hr
      unfold audioLevelOf audioLevelCapFirst
      rw [min_eq_left (le_of_lt hr)]
      have h2 : (100 : ℤ) ≤ ⌊rms * 400 + 1 / 2⌋ := by
        refine Int.le_floor.mpr ?_
        push_cast
        nlinarith
      rw [min_eq_left h2]
      have h3 : ⌊(1 : ℚ) / 4 * 400 + 1 / 2⌋ = 100 := by
        rw [Int.floor_eq_iff]
        constructor <;> norm_num
      rw [h3]

/-- Witness for C5 at the one-sample buffer `[1/2]`, whose RMS is `1/2`. -/
theorem audio_level_bounded_witness :
    (0 : ℚ) ≤ 1 / 2
    ∧ (1 / 2 : ℚ) * (1 / 2) = meanSquare [(1 / 2 : ℚ)]
    ∧ (0 ≤ audioLevelOf (1 / 2) ∧ audioLevelOf (1 / 2) ≤ 100
        ∧ audioLevelOf (1 / 2) = audioLevelCapFirst (1 / 2)) :=
  ⟨by norm_num, by simp [meanSquare],
   audio_level_bounded [(1 / 2 : ℚ)] (1 / 2) (by norm_num) (by simp [meanSquare])⟩

/-- C8: the binary-to-text transport transform and its inverse are pure
functions, and text-decode after text-encode is the identity on every byte
sequence. -/
theorem text_transport_roundtrip (bytes : List Nat) (h : ∀ b ∈ bytes, b < 256) :
    b64decodeChars (b64encodeBytes bytes) = some bytes :=
  b64_roundtrip_aux bytes h

/-- Witness for C8 on a four-byte sequence (one full group plus padding). -/
theorem text_transport_roundtrip_witness :
    (∀ b ∈ [0, 255, 17, 3], b < 256)
    ∧ b64decodeChars (b64encodeBytes [0, 255, 17, 3]) = some [0, 255, 17, 3] :=
  ⟨by decide, text_transport_roundtrip [0, 255, 17, 3] (by decide)⟩

/-- C9: decoding bytes into samples requires an even byte length (the 2-byte
fixed-point sample width); every odd-length input fails with
`malformedPacket` instead of producing samples. -/
theorem decode_odd_length_malformed :
    ∀ (bytes : List Nat), bytes.length % 2 = 1 →
      bytesToSamples bytes = Except.error CodecError.malformedPacket
  | [], h => by simp at h
  | [b], _ => rfl
  | b0 :: b1 :: rest, h => by
      have hr : rest.length % 2 = 1 := by
        simp only [List.length_cons] at h
        omega
      have ih := decode_odd_length_malformed rest hr
      simp [bytesToSamples, ih]

/-- Witness for C9 at the odd-length byte sequence `[7]`. -/
theorem decode_odd_length_malformed_witness :
    ([7] : List Nat).length % 2 = 1
    ∧ bytesToSamples [7] = Except.error CodecError.malformedPacket :=
  ⟨by decide, decode_odd_length_malformed [7] (by decide)⟩

/-- C10: every sample a successful decode produces lies in
`[-1, 32767/32768]` (an int16 in `[-32768, 32767]` divided by `32768`), so
decoded frames never exceed full scale whatever the packet contains. -/
theorem decoded_samples_in_range :
    ∀ (bytes : List Nat), (∀ b ∈ bytes, b < 256) →
      ∀ (samples : List ℚ), bytesToSamples bytes = Except.ok samples →
        ∀ s ∈ samples, -1 ≤ s ∧ s ≤ 32767 / 32768
  | [], _, samples, h => by
      simp [bytesToSamples] at h
      subst h
      simp
  | [b], _, samples, h => by
      rw [show bytesToSamples [b] = Except.error CodecError.malformedPacket
        from rfl] at h
      exact absurd h (by simp)
  | b0 :: b1 :: rest, hb, samples, h => by
      have hb0 : b0 < 256 := hb b0 (by simp)
      have hb1 : b1 < 256 := hb b1 (by simp)
      cases hrec : bytesToSamples rest with
      | error e =>
          simp only [bytesToSamples, hrec] at h
          exact absurd h (by simp)
      | ok t =>
          have ih := decoded_samples_in_range rest
            (fun x hx => hb x (by simp [hx])) t hrec
          simp only [bytesToSamples, hrec] at h
          have hs : samples = ((int16OfBytes b0 b1 : ℚ) / 32768) :: t := by
            cases h
            rfl
          subst hs
          intro s hsmem
          have hrange : -32768 ≤ int16OfBytes b0 b1
              ∧ int16OfBytes b0 b1 ≤ 32767 := by
            simp only [int16OfBytes]
            split <;> omega
          rcases List.mem_cons.mp hsmem with hcase | hcase
          · subst hcase
            have hlo : (-32768 : ℚ) ≤ (int16OfBytes b0 b1 : ℚ) := by
              exact_mod_cast hrange.1
            have hhi : ((int16OfBytes b0 b1 : ℚ)) ≤ 32767 := by
              exact_mod_cast hrange.2
            constructor <;> [linarith; linarith]
          · exact ih s hcase

/-- Witness for C10 at the packet `[0, 128]`, which decodes to the full-scale
negative sample `-1`. -/
theorem decoded_samples_in_range_witness :
    (∀ b ∈ [0, 128], b < 256)
    ∧ bytesToSamples [0, 128] = Except.ok [(-1 : ℚ)]
    ∧ ∀ s ∈ [(-1 : ℚ)], -1 ≤ s ∧ s ≤ 32767 / 32768 :=
  ⟨by decide, by simp [bytesToSamples, int16OfBytes],
   decoded_samples_in_range [0, 128] (by decide) [(-1 : ℚ)]
     (by simp [bytesToSamples, int16OfBytes])⟩
